import Mathlib

/-!
Verification of the gidari transport pipeline (internal/transport/transport.go)
against its natural-language specification.

The Go source is shallowly embedded below.  Times are modelled as integers
(seconds); `time.Parse` and `time.Format` are abstracted as explicit function
parameters `parse : String → String → Option Int` (layout, value) and
`format : String → Int → String`, since the `time` package is an external
collaborator.  Go maps `map[string]string` are modelled as association lists
with keyed update (`mapSet`), and `url.Values` as multivalued association
lists (`Query`).  Rate limiters are identified by an allocation counter: each
call to `rate.NewLimiter` yields a fresh identifier.
-/

namespace Gidari

/-- A resolved URL query, as a multivalued association list; models
`url.Values` restricted to the operations the source uses. -/
abbrev Query := List (String × String)

/-- Models `url.Values` lookup `query[name]`: the list of values bound to
`name`, in order. -/
def queryGet (q : Query) (name : String) : List String :=
  (q.filter (fun kv => kv.1 = name)).map Prod.snd

/-- Models `url.Values.Set`: replaces all values of `k` with the single
value `v`. -/
def querySet (q : Query) (k v : String) : Query :=
  (q.filter (fun kv => kv.1 ≠ k)) ++ [(k, v)]

/-- Models the Go map assignment `m[k] = v` on a `map[string]string`
represented as an association list with unique keys: update in place if the
key exists, otherwise append. -/
def mapSet (q : Query) (k v : String) : Query :=
  if q.any (fun kv => kv.1 = k) then
    q.map (fun kv => if kv.1 = k then (k, v) else kv)
  else q ++ [(k, v)]

/-- Models the loop `for n, v := range req.Query { query.Set(n, v) }`:
every parameter of `params` is Set on top of `base`. -/
def applyQuery (base : Query) (params : Query) : Query :=
  params.foldl (fun q kv => querySet q kv.1 kv.2) base

/-- Auxiliary for `strContains`: does `pat` occur as a contiguous sublist? -/
def containsSub : List Char → List Char → Bool
  | [], pat => pat.isEmpty
  | c :: rest, pat => pat.isPrefixOf (c :: rest) || containsSub rest pat

/-- Models `strings.Contains`. -/
def strContains (s pat : String) : Bool :=
  containsSub s.data pat.data

/-- Models `strings.TrimPrefix(s, "/")`: strips one leading slash. -/
def trimLeadingSlash (s : String) : String :=
  match s.data with
  | [] => s
  | c :: rest => if c = '/' then String.mk rest else s

/-- Auxiliary for `strSplit`: split a character list at every occurrence of
`sep`, accumulating the current (reversed) segment. -/
def splitCharList (sep : Char) : List Char → List Char → List String
  | acc, [] => [String.mk acc.reverse]
  | acc, c :: rest =>
    if c = sep then String.mk acc.reverse :: splitCharList sep [] rest
    else splitCharList sep (c :: acc) rest

/-- Models `strings.Split(s, sep)` for a one-character separator (the source
only splits on "/").  Always returns a non-empty list, like the Go
function. -/
def strSplit (s : String) (sep : Char) : List String :=
  splitCharList sep [] s.data

/-- The Go `time.RFC3339` layout constant. -/
def RFC3339 : String := "2006-01-02T15:04:05Z07:00"

/-- The `timeseries` struct of transport.go. `period` is the chunk size in
seconds (an int32 in Go). -/
structure Timeseries where
  startName : String
  endName : String
  period : Int
  layout : Option String

/-- The chunking loop of `timeseries.chunks` (transport.go lines 79-88):

  for start.Before(end) \x7b
      next := start.Add(time.Second * time.Duration(ts.Period))
      if next.Before(end) \x7b chunks = append(chunks, [2]time.Time\x7bstart, next\x7d) \x7d
      else \x7b chunks = append(chunks, [2]time.Time\x7bstart, end\x7d) \x7d
      start = next
  \x7d

The guard also requires `0 < p`: for `p ≤ 0` and `start < e` the Go loop
never terminates (no claim concerns that region), so the embedding returns
`[]` there. -/
def chunksLoop (p e start : Int) : List (Int × Int) :=
  if _h : start < e ∧ 0 < p then
    (start, if start + p < e then start + p else e) :: chunksLoop p e (start + p)
  else []
termination_by (e - start).toNat
decreasing_by omega

/-- The `timeseries.chunks` method (transport.go lines 49-89): defaults the
layout to RFC3339, requires the start and end parameters to occur exactly
once in the resolved query, parses both bounds, and runs the chunking loop.
`parse` abstracts `time.Parse` (layout, value); a parse failure in Go
returns the parse error, modelled here by a fixed message. -/
def Timeseries.chunks (parse : String → String → Option Int) (ts : Timeseries)
    (q : Query) : Except String (List (Int × Int)) :=
  let layout := ts.layout.getD RFC3339
  match queryGet q ts.startName with
  | [startVal] =>
    match parse layout startVal with
    | none => .error "cannot parse start value with the configured layout"
    | some start =>
      match queryGet q ts.endName with
      | [endVal] =>
        match parse layout endVal with
        | none => .error "cannot parse end value with the configured layout"
        | some endT => .ok (chunksLoop ts.period endT start)
      | _ => .error "endName is required for timeseries data"
  | _ => .error "startName is required for timeseries data"

/-- The tiling property claimed for the chunker, as a Boolean predicate:
`isTilingB p s e cs` holds when `cs` is an ordered sequence of consecutive
`[a, b)` intervals starting at `s`, ending exactly at `e`, with every
non-final interval of length exactly `p` and the final interval of positive
length at most `p`; the empty sequence tiles exactly the empty range. -/
def isTilingB (p : Int) : Int → Int → List (Int × Int) → Bool
  | s, e, [] => s == e
  | s, e, [c] =>
    (c.1 == s) && decide (c.1 < c.2) && decide (c.2 - c.1 ≤ p) && (c.2 == e)
  | s, e, c :: c2 :: rest =>
    (c.1 == s) && decide (c.1 < c.2) && (c.2 - c.1 == p) &&
      isTilingB p c.2 e (c2 :: rest)

/-- A URL, structured: models the parts of `net/url.URL` the source reads
(`Host`, `EscapedPath()` as the stored `path` string, and the resolved
query).  URL-construction errors of `url.JoinPath`/`url.Parse` concern
malformed URL strings only and are outside every claim, so the structured
model is total. -/
structure URL where
  host : String
  path : String
  query : Query
deriving DecidableEq

/-- Models `url.JoinPath` / `path.Join` at the level the claims need: the
joined path.  Slash cleaning is not observed by any claim. -/
def pathJoin (a b : String) : String :=
  if a = "" then b else if b = "" then a else a ++ "/" ++ b

/-- The `APIKey` credential struct. -/
structure APIKey where
  passphrase : String
  key : String
  secret : String
deriving DecidableEq

/-- The `Authentication` struct: the only credential strategy is an optional
API key. -/
structure Authentication where
  apiKey : Option APIKey
deriving DecidableEq

/-- An HTTP client as built by `web.NewClient` from `auth.NewAPIKey()`
(external collaborator): records the material it was built from. -/
structure Client where
  url : String
  key : String
  passphrase : String
  secret : String
deriving DecidableEq

/-- The `RateLimitConfig` struct. -/
structure RateLimitConfig where
  burst : Option Nat
  period : Option Nat
deriving DecidableEq

/-- The `Request` struct of the first transport.go version (with `Upsert`):
`query` models the `map[string]string` field `Query`, `table` the optional
table override. -/
structure Request where
  method : String
  endpoint : String
  rateLimitBurstCap : Nat
  query : Query
  timeseries : Option Timeseries
  table : Option String

/-- The `Config` struct of the first transport.go version.  The base URL is
structured; logger and DNS list are external collaborators. -/
structure Config where
  url : URL
  authentication : Authentication
  dnsList : List String
  requests : List Request
  rateLimitConfig : Option RateLimitConfig
  truncate : Bool

/-- A `web.FetchConfig`: method, resolved URL, and the identity of the
`rate.Limiter` it references (an allocation counter: two FetchConfigs share
a limiter exactly when their `limiterId`s are equal). -/
structure FetchConfig where
  method : String
  url : URL
  limiterId : Nat

/-- The `flattenedRequest` struct of the first transport.go version. -/
structure FlattenedRequest where
  fetchConfig : FetchConfig
  table : Option String

/-- The package-level `newFetchConfig` (transport.go lines 187-217): joins
the base URL with the endpoint, overlays the static query parameters with
`Set`, and references the limiter `rl` passed in by `Upsert`. -/
def newFetchConfig (cfg : Config) (req : Request) (rl : Nat) : FetchConfig :=
  { method := req.method
    url := { host := cfg.url.host
             path := pathJoin cfg.url.path req.endpoint
             query := applyQuery cfg.url.query req.query }
    limiterId := rl }

/-- The chunk loop of `Upsert` (transport.go lines 355-370).  `chunkReq :=
req` in Go copies a pointer, so the writes `chunkReq.Query[StartName] = ...`
mutate the one shared `Query` map; the embedding threads that shared map
through the recursion and returns, besides the flattened requests, the state
of the original request map after the loop. -/
def flattenChunks (format : String → Int → String) (cfg : Config)
    (ts : Timeseries) (rl : Nat) :
    Request → List (Int × Int) → List FlattenedRequest × Query
  | req, [] => ([], req.query)
  | req, c :: rest =>
    let layout := ts.layout.getD RFC3339
    let q2 := mapSet (mapSet req.query ts.startName (format layout c.1))
      ts.endName (format layout c.2)
    let req2 : Request := { req with query := q2 }
    let out := flattenChunks format cfg ts rl req2 rest
    ({ fetchConfig := newFetchConfig cfg req2 rl, table := req2.table } :: out.1,
      out.2)

/-- The per-request flattening step of `Upsert` (transport.go lines
343-377): without a timeseries, one flattened request; with one, the chunker
runs on the resolved URL query and one flattened request is built per chunk.
Returns the flattened requests together with the final state of the
(shared, mutated) request query map. -/
def flattenRequest (parse : String → String → Option Int)
    (format : String → Int → String) (cfg : Config) (req : Request)
    (rl : Nat) : Except String (List FlattenedRequest × Query) :=
  let fc := newFetchConfig cfg req rl
  match req.timeseries with
  | none => .ok ([{ fetchConfig := fc, table := req.table }], req.query)
  | some ts =>
    match ts.chunks parse fc.url.query with
    | .error e => .error ("error getting timeseries chunks: " ++ e)
    | .ok cs => .ok (flattenChunks format cfg ts rl req cs)

/-- `Config.connect` (transport.go lines 151-160): with an API key it builds
a client via `web.NewClient` (abstracted as `newClient`); with no credential
strategy it returns `(nil, nil)` — no client and no error. -/
def Config.connect (newClient : String → APIKey → Except String Client)
    (cfg : Config) : Except String (Option Client) :=
  match cfg.authentication.apiKey with
  | some k => (newClient cfg.url.host k).map some
  | none => .ok none

/-- Outcome of the connecting phase of `Upsert`. -/
inductive ConnectOutcome where
  | failed : String → ConnectOutcome
  | proceeded : Option Client → ConnectOutcome
deriving DecidableEq

/-- The validation-and-connect stage at the top of `Upsert` (transport.go
lines 318-326): a validation error or connect error returns early
(`failed`); otherwise `Upsert` logs success and proceeds to flattening with
whatever client value `connect` produced. -/
def upsertConnectPhase (newClient : String → APIKey → Except String Client)
    (cfg : Config) : ConnectOutcome :=
  match cfg.rateLimitConfig with
  | none => .failed "RateLimitConfig is a required field on transport.Config"
  | some rl =>
    match rl.burst with
    | none => .failed "Burst is a required field on transport.RateLimitConfig"
    | some _ =>
      match rl.period with
      | none => .failed "Period is a required field on transport.RateLimitConfig"
      | some _ =>
        match cfg.connect newClient with
        | .error e => .failed ("unable to connect to client: " ++ e)
        | .ok c => .proceeded c

/-- The `repoJob` struct: response body bytes, source URL, optional table
override. -/
structure RepoJob where
  b : List Nat
  url : URL
  table : Option String
deriving DecidableEq

/-- The table computed by transport.go lines 237-243:

  endpoint := strings.TrimPrefix(job.url.EscapedPath(), "/")
  endpointParts := strings.Split(endpoint, "/")
  table := endpointParts[len(endpointParts)-1]
  if job.table != nil \x7b table = *job.table \x7d

`strSplit` always returns a non-empty list, so the `getLastD` default is
never used. -/
def baseTable (job : RepoJob) : String :=
  job.table.getD ((strSplit (trimLeadingSlash job.url.path) '/').getLastD "")

/-- The full table resolution of `repositoryWorker` (transport.go lines
237-257), including the coinbase candles special case.  `none` models a Go
runtime panic from unguarded indexing: `job.url.Query()["granularity"][0]`
panics when the query has no granularity value, and `endpointParts[1]`
(the eager `productID` read) panics when the path has fewer than two
segments. -/
def resolveTable (job : RepoJob) : Option String :=
  let endpointParts := strSplit (trimLeadingSlash job.url.path) '/'
  let table := baseTable job
  if table = "candles" ∧ strContains job.url.host "coinbase.com" = true then
    match queryGet job.url.query "granularity" with
    | [] => none
    | g :: _ =>
      if 2 ≤ endpointParts.length then
        some (if g = "60" then "candle_minutes" else table)
      else none
  else some table

/-- The observable fate of one worker-loop iteration: either it completes
and the worker keeps consuming jobs, or `logrus.Logger.Fatal` runs, which
calls `os.Exit(1)` and terminates the host process. -/
inductive StepOutcome (α : Type) where
  | done : α → StepOutcome α
  | processExit : String → StepOutcome α
deriving DecidableEq

/-- One iteration of `webWorker` (transport.go lines 306-315) on a received
job, given the outcome of `web.Fetch`: on error it runs `job.logger.Fatal(err)`
(process exit); on success it emits a `repoJob` on the repo channel. -/
def webWorkerStep (fetchResult : Except String (List Nat)) (u : URL)
    (t : Option String) : StepOutcome RepoJob :=
  match fetchResult with
  | .error e => .processExit e
  | .ok bytes => .done { b := bytes, url := u, table := t }

/-- The repository loop of `repositoryWorker` (transport.go lines 275-287):
for each repository it re-runs the encoding callback and upserts; an error
from either runs `cfg.logger.Fatal(err)` (process exit); after the loop the
worker signals done. -/
def repoUpsertLoop (encodeResult : Except String (List Nat))
    (upsert : Nat → String → List Nat → Except String Unit) (table : String) :
    List Nat → StepOutcome Unit
  | [] => .done ()
  | repo :: rest =>
    match encodeResult with
    | .error e => .processExit e
    | .ok bytes =>
      match upsert repo table bytes with
      | .error e => .processExit e
      | .ok _ => repoUpsertLoop encodeResult upsert table rest

/-- The `Request` struct of the second transport.go version (the gidari
file with `flattenTimeseries`): the table name is a plain string and the
rate-limit configuration lives on the request. -/
structure Request2 where
  method : String
  endpoint : String
  query : Query
  timeseries : Option Timeseries
  table : String
  truncate : Option Bool
  rateLimitConfig : Option RateLimitConfig

/-- The `flattenedRequest` struct of the second transport.go version. -/
structure FlattenedRequest2 where
  fetchConfig : FetchConfig
  table : String

/-- `Request.newFetchConfig` of the second transport.go version (lines
464-488): joins the path, overlays the query, and then runs

  rateLimiter := rate.NewLimiter(rate.Every(*req.RateLimitConfig.Period), *req.RateLimitConfig.Burst)

inside the function, allocating a fresh limiter on every call.  `nextId` is
the allocation counter: the returned FetchConfig references the freshly
allocated limiter `nextId`, and the counter advances. -/
def Request2.newFetchConfig (req : Request2) (rurl : URL) (nextId : Nat) :
    FetchConfig × Nat :=
  ({ method := req.method
     url := { host := rurl.host
              path := pathJoin rurl.path req.endpoint
              query := applyQuery rurl.query req.query }
     limiterId := nextId },
    nextId + 1)

/-- The chunk loop of `Request.flattenTimeseries` (second version, lines
535-547): `chunkReq := req` copies the pointer, so the chunk bounds are
written into the one shared query map (threaded through the recursion), and
`chunkReq.newFetchConfig` is called per chunk — allocating a fresh rate
limiter for every chunk. -/
def flattenChunks2 (format : String → Int → String) (ts : Timeseries)
    (rurl : URL) : Request2 → Nat → List (Int × Int) →
      List FlattenedRequest2 × Nat
  | _req, n, [] => ([], n)
  | req, n, c :: rest =>
    let layout := ts.layout.getD RFC3339
    let q2 := mapSet (mapSet req.query ts.startName (format layout c.1))
      ts.endName (format layout c.2)
    let req2 : Request2 := { req with query := q2 }
    let fcn := req2.newFetchConfig rurl n
    let out := flattenChunks2 format ts rurl req2 fcn.2 rest
    ({ fetchConfig := fcn.1, table := req2.table } :: out.1, out.2)

/-- `Request.flattenTimeseries` of the second transport.go version (lines
511-550).  The `timeseries.chunk` method it calls is not among the provided
sources; that step is modelled from the spec: per spec section 4.1 the
Chunker parses the start/end bounds from the resolved query and produces the
period-sized tiling of the range, which is exactly `Timeseries.chunks`.
`n` is the rate-limiter allocation counter threaded through
`newFetchConfig`. -/
def Request2.flattenTimeseries (parse : String → String → Option Int)
    (format : String → Int → String) (req : Request2) (rurl : URL)
    (n : Nat) : Except String (List FlattenedRequest2 × Nat) :=
  match req.timeseries with
  | none =>
    let fcn := req.newFetchConfig rurl n
    .ok ([{ fetchConfig := fcn.1, table := req.table }], fcn.2)
  | some ts =>
    let rurl2 : URL := { rurl with query := applyQuery rurl.query req.query }
    match ts.chunks parse rurl2.query with
    | .error e => .error ("failed to set time series chunks: " ++ e)
    | .ok cs => .ok (flattenChunks2 format ts rurl2 req n cs)

/-- A concrete stand-in for `time.Parse` on the small set of time strings
used by the concrete instances below (the layout argument is unused, as the
instances never set a layout and the values are fixed). -/
def pc : String → String → Option Int := fun _layout v =>
  if v = "0" then some 0
  else if v = "5" then some 5
  else if v = "10" then some 10
  else none

/-- A concrete stand-in for `time.Format`, inverse to `pc` on the values the
concrete instances produce. -/
def fmtC : String → Int → String := fun _layout t =>
  if t = 0 then "0" else if t = 5 then "5" else if t = 10 then "10" else "x"

/-- A concrete timeseries spec: bounds named start/end, period 5 seconds,
default layout. -/
def tsC : Timeseries :=
  { startName := "start", endName := "end", period := 5, layout := none }

/-- A concrete pipeline configuration with no credential strategy and a
fully populated rate-limit configuration. -/
def cfgC : Config :=
  { url := { host := "api.example.com", path := "", query := [] }
    authentication := { apiKey := none }
    dnsList := []
    requests := []
    rateLimitConfig := some { burst := some 1, period := some 1 }
    truncate := false }

/-- A concrete timeseries request whose range [0, 10) spans exactly two full
periods of 5 seconds. -/
def reqTs : Request :=
  { method := "GET", endpoint := "candles", rateLimitBurstCap := 1
    query := [("start", "0"), ("end", "10")]
    timeseries := some tsC, table := none }

/-- The same request without a timeseries spec. -/
def reqNoTs : Request := { reqTs with timeseries := none }

/-- A concrete second-version request with the same two-chunk timeseries. -/
def req2C : Request2 :=
  { method := "GET", endpoint := "candles"
    query := [("start", "0"), ("end", "10")]
    timeseries := some tsC, table := "tbl", truncate := none
    rateLimitConfig := some { burst := some 1, period := some 1 } }

/-- A concrete base URL for the second-version flattening. -/
def rurlC : URL := { host := "h.example.com", path := "", query := [] }

/-- A concrete source URL for worker jobs. -/
def urlC : URL :=
  { host := "api.example.com", path := "/products/BTC-USD/candles"
    query := [("granularity", "60")] }

/-- A repo job with an explicit table override "candles" whose source URL
is a coinbase candles endpoint with granularity 60. -/
def jobCandles : RepoJob :=
  { b := []
    url := { host := "api.exchange.coinbase.com"
             path := "/products/BTC-USD/candles"
             query := [("granularity", "60")] }
    table := some "candles" }

/-- A coinbase candles job whose URL query has no granularity parameter. -/
def jobNoGranularity : RepoJob :=
  { b := []
    url := { host := "api.pro.coinbase.com"
             path := "/products/BTC-USD/candles"
             query := [] }
    table := none }

/-- A coinbase candles job whose URL path has a single segment. -/
def jobShortPath : RepoJob :=
  { b := []
    url := { host := "api.pro.coinbase.com"
             path := "/candles"
             query := [("granularity", "3600")] }
    table := none }

theorem chunksLoop_eq_nil (p e s : Int) (h : ¬(s < e ∧ 0 < p)) :
    chunksLoop p e s = [] := by
  unfold chunksLoop
  exact dif_neg h

theorem chunksLoop_cons (p e s : Int) (h1 : s < e) (h2 : 0 < p) :
    chunksLoop p e s =
      (s, if s + p < e then s + p else e) :: chunksLoop p e (s + p) := by
  conv_lhs => unfold chunksLoop
  rw [dif_pos ⟨h1, h2⟩]

theorem isTilingB_cons (p s e b : Int) (rest : List (Int × Int))
    (hb : s < b) (hlen : b - s ≤ p)
    (hlast : rest = [] → b = e) (hmid : rest ≠ [] → b - s = p)
    (htail : isTilingB p b e rest = true) :
    isTilingB p s e ((s, b) :: rest) = true := by
  cases rest with
  | nil =>
    have he := hlast rfl
    subst he
    simp [isTilingB]
    omega
  | cons c2 r =>
    simp only [isTilingB]
    simp [hb, hmid (by simp), htail]

/-- The chunking loop tiles `[s, e)` whenever the period is positive. -/
theorem chunksLoop_tiles (p s e : Int) (hp : 0 < p) (hse : s ≤ e) :
    isTilingB p s e (chunksLoop p e s) = true := by
  by_cases hlt : s < e
  · rw [chunksLoop_cons p e s hlt hp]
    by_cases hnext : s + p < e
    · rw [if_pos hnext]
      refine isTilingB_cons p s e (s + p) _ (by omega) (by omega) ?_ (fun _ => by omega)
        (chunksLoop_tiles p (s + p) e hp (le_of_lt hnext))
      intro hnil
      exact absurd hnil (by rw [chunksLoop_cons p e (s + p) hnext hp]; simp)
    · rw [if_neg hnext]
      refine isTilingB_cons p s e e _ hlt (by omega) (fun _ => rfl) ?_ ?_
      · intro hne
        exact absurd (chunksLoop_eq_nil p e (s + p) (by omega)) hne
      · rw [chunksLoop_eq_nil p e (s + p) (by omega)]
        simp [isTilingB]
  · have : s = e := le_antisymm hse (not_lt.mp hlt)
    rw [chunksLoop_eq_nil p e s (by omega)]
    simp [isTilingB, this]
termination_by (e - s).toNat
decreasing_by omega

/-- When the range spans exactly `k` full periods, the loop produces exactly
`k` chunks. -/
theorem chunksLoop_length (p : Int) (hp : 0 < p) :
    ∀ (k : Nat) (s e : Int), e - s = (k : Int) * p →
      (chunksLoop p e s).length = k := by
  intro k
  induction k with
  | zero =>
    intro s e h
    rw [chunksLoop_eq_nil p e s (by omega)]
    rfl
  | succ k ih =>
    intro s e h
    have hkp : (0 : Int) ≤ (k : Int) * p :=
      mul_nonneg (Int.natCast_nonneg k) (le_of_lt hp)
    have hcast : ((k + 1 : Nat) : Int) * p = (k : Int) * p + p := by
      push_cast
      ring
    have hlt : s < e := by
      rw [hcast] at h
      omega
    rw [chunksLoop_cons p e s hlt hp]
    have hrec : e - (s + p) = (k : Int) * p := by
      rw [hcast] at h
      omega
    simp [ih (s + p) e hrec]

/-- The chunker evaluated on the concrete two-period range [0, 10) with
period 5. -/
theorem chunksLoop_concrete : chunksLoop 5 10 0 = [(0, 5), (5, 10)] := by
  have h2 : chunksLoop 5 10 10 = [] := chunksLoop_eq_nil 5 10 10 (by omega)
  rw [chunksLoop_cons 5 10 0 (by omega) (by omega)]
  norm_num
  rw [chunksLoop_cons 5 10 5 (by omega) (by omega)]
  norm_num [h2]

/-- C1: for every query whose start and end values occur exactly once and
parse to times s < e, and every period p > 0, `timeseries.chunks` succeeds
and returns an ordered finite sequence of [start, end) intervals that
exactly tiles [s, e) with no gaps or overlaps, every chunk of length at most
p, and only the last chunk possibly shorter than p. -/
theorem chunker_tiles_range (parse : String → String → Option Int)
    (ts : Timeseries) (q : Query) (sv ev : String) (s e : Int)
    (h1 : queryGet q ts.startName = [sv])
    (h2 : parse (ts.layout.getD RFC3339) sv = some s)
    (h3 : queryGet q ts.endName = [ev])
    (h4 : parse (ts.layout.getD RFC3339) ev = some e)
    (hse : s < e) (hp : 0 < ts.period) :
    ts.chunks parse q = .ok (chunksLoop ts.period e s) ∧
      isTilingB ts.period s e (chunksLoop ts.period e s) = true := by
  refine ⟨?_, chunksLoop_tiles ts.period s e hp (le_of_lt hse)⟩
  simp only [Timeseries.chunks, h1, h2, h3, h4]

/-- Witness for C1 at the concrete query start=0, end=10, period=5. -/
theorem chunker_tiles_range_witness :
    Timeseries.chunks pc tsC [("start", "0"), ("end", "10")] =
      .ok (chunksLoop tsC.period 10 0) ∧
      isTilingB tsC.period 0 10 (chunksLoop tsC.period 10 0) = true :=
  chunker_tiles_range pc tsC [("start", "0"), ("end", "10")] "0" "10" 0 10
    rfl rfl rfl rfl (by decide) (by decide)

/-- C8: when the parsed start is at or after the parsed end, the chunker
returns an empty sequence and no error. -/
theorem chunker_empty_on_degenerate_range (parse : String → String → Option Int)
    (ts : Timeseries) (q : Query) (sv ev : String) (s e : Int)
    (h1 : queryGet q ts.startName = [sv])
    (h2 : parse (ts.layout.getD RFC3339) sv = some s)
    (h3 : queryGet q ts.endName = [ev])
    (h4 : parse (ts.layout.getD RFC3339) ev = some e)
    (hse : e ≤ s) :
    ts.chunks parse q = .ok [] := by
  simp only [Timeseries.chunks, h1, h2, h3, h4]
  rw [chunksLoop_eq_nil ts.period e s (by omega)]

/-- Witness for C8 at the concrete degenerate query start=10, end=0. -/
theorem chunker_empty_on_degenerate_range_witness :
    Timeseries.chunks pc tsC [("start", "10"), ("end", "0")] = .ok [] :=
  chunker_empty_on_degenerate_range pc tsC [("start", "10"), ("end", "0")]
    "10" "0" 10 0 rfl rfl rfl rfl (by decide)

/-- C9: `timeseries.chunks` fails with an error exactly when the start or
end parameter is absent or appears more than once in the resolved query, or
when either bound fails to parse under the configured layout (RFC3339 when
no layout is set); an error excludes any chunk output. -/
theorem chunker_error_iff (parse : String → String → Option Int)
    (ts : Timeseries) (q : Query) :
    (∃ msg, ts.chunks parse q = .error msg) ↔
      ¬ ∃ sv s ev e, queryGet q ts.startName = [sv] ∧
        parse (ts.layout.getD RFC3339) sv = some s ∧
        queryGet q ts.endName = [ev] ∧
        parse (ts.layout.getD RFC3339) ev = some e := by
  constructor
  · rintro ⟨msg, hmsg⟩ ⟨sv, s, ev, e, hsv, hs, hev, he⟩
    simp only [Timeseries.chunks, hsv, hs, hev, he] at hmsg
    simp at hmsg
  · intro hno
    rcases hqs : queryGet q ts.startName with _ | ⟨sv, svRest⟩
    · exact ⟨"startName is required for timeseries data",
        by simp only [Timeseries.chunks, hqs]⟩
    · rcases svRest with _ | ⟨sv2, svRest2⟩
      · rcases hps : parse (ts.layout.getD RFC3339) sv with _ | s
        · exact ⟨"cannot parse start value with the configured layout",
            by simp only [Timeseries.chunks, hqs, hps]⟩
        · rcases hqe : queryGet q ts.endName with _ | ⟨ev, evRest⟩
          · exact ⟨"endName is required for timeseries data",
              by simp only [Timeseries.chunks, hqs, hps, hqe]⟩
          · rcases evRest with _ | ⟨ev2, evRest2⟩
            · rcases hpe : parse (ts.layout.getD RFC3339) ev with _ | e
              · exact ⟨"cannot parse end value with the configured layout",
                  by simp only [Timeseries.chunks, hqs, hps, hqe, hpe]⟩
              · exact absurd ⟨sv, s, ev, e, hqs, hps, hqe, hpe⟩ hno
            · exact ⟨"endName is required for timeseries data",
                by simp only [Timeseries.chunks, hqs, hps, hqe]⟩
      · exact ⟨"startName is required for timeseries data",
          by simp only [Timeseries.chunks, hqs]⟩

/-- Each chunk contributes exactly one flattened request. -/
theorem flattenChunks_length (format : String → Int → String) (cfg : Config)
    (ts : Timeseries) (rl : Nat) :
    ∀ (cs : List (Int × Int)) (req : Request),
      (flattenChunks format cfg ts rl req cs).1.length = cs.length := by
  intro cs
  induction cs with
  | nil => intro req; rfl
  | cons c rest ih => intro req; simp [flattenChunks, ih]

/-- C7: flattening a request without a timeseries spec produces exactly one
flattened request; flattening one whose resolved range spans exactly k full
periods produces exactly k flattened requests. -/
theorem flatten_request_count (parse : String → String → Option Int)
    (format : String → Int → String) (cfg : Config) (req : Request)
    (rl : Nat) :
    (req.timeseries = none →
      (flattenRequest parse format cfg req rl).map (fun r => r.1.length) =
        .ok 1) ∧
    (∀ ts sv ev s e (k : Nat), req.timeseries = some ts →
      queryGet (newFetchConfig cfg req rl).url.query ts.startName = [sv] →
      parse (ts.layout.getD RFC3339) sv = some s →
      queryGet (newFetchConfig cfg req rl).url.query ts.endName = [ev] →
      parse (ts.layout.getD RFC3339) ev = some e →
      0 < ts.period → e - s = (k : Int) * ts.period →
      (flattenRequest parse format cfg req rl).map (fun r => r.1.length) =
        .ok k) := by
  constructor
  · intro hnone
    simp [flattenRequest, hnone, Except.map]
  · intro ts sv ev s e k hts h1 h2 h3 h4 hp hk
    have hchunks : ts.chunks parse (newFetchConfig cfg req rl).url.query =
        .ok (chunksLoop ts.period e s) := by
      simp only [Timeseries.chunks, h1, h2, h3, h4]
    simp only [flattenRequest, hts, hchunks, Except.map]
    simp [flattenChunks_length, chunksLoop_length ts.period hp k s e hk]

/-- Witness for C7: the request without a timeseries flattens to 1; the
concrete two-period request flattens to 2. -/
theorem flatten_request_count_witness :
    (flattenRequest pc fmtC cfgC reqNoTs 0).map (fun r => r.1.length) =
      .ok 1 ∧
    (flattenRequest pc fmtC cfgC reqTs 0).map (fun r => r.1.length) =
      .ok 2 :=
  ⟨(flatten_request_count pc fmtC cfgC reqNoTs 0).1 rfl,
    (flatten_request_count pc fmtC cfgC reqTs 0).2 tsC "0" "10" 0 10 2
      rfl rfl rfl rfl rfl (by decide) (by decide)⟩

/-- C2 (code bug): flattening the concrete two-chunk request leaves the
original request query map holding the final chunk bounds — the loop
`chunkReq := req` copies a pointer, so the chunk writes mutate the shared
map, and the original query is no longer what it was before flattening. -/
theorem flatten_mutates_original_query :
    (flattenRequest pc fmtC cfgC reqTs 0).map (fun r => r.2) =
      .ok [("start", "5"), ("end", "10")] ∧
    reqTs.query = [("start", "0"), ("end", "10")] ∧
    ([("start", "5"), ("end", "10")] : Query) ≠ reqTs.query := by
  refine ⟨?_, rfl, by decide⟩
  have h : flattenRequest pc fmtC cfgC reqTs 0 =
      .ok (flattenChunks fmtC cfgC tsC 0 reqTs (chunksLoop 5 10 0)) := rfl
  rw [h, chunksLoop_concrete]
  rfl

/-- C3 (code bug): on a fetch error the web worker runs `logger.Fatal`,
terminating the host process, and on an upsert error the repository worker
does the same — no error is reported onward and no subsequent job is
processed. -/
theorem workers_exit_process_on_error :
    webWorkerStep (.error "fetch failed") urlC none =
      .processExit "fetch failed" ∧
    repoUpsertLoop (.ok [1]) (fun _ _ _ => .error "upsert failed")
      "candles" [0] = .processExit "upsert failed" :=
  ⟨rfl, rfl⟩

/-- C4 (code bug): flattening the concrete two-chunk request through the
second-version `Request.flattenTimeseries` yields flattened requests whose
rate limiters are distinct fresh allocations (ids 0 and 1), because
`Request.newFetchConfig` calls `rate.NewLimiter` on every invocation. -/
theorem flatten_allocates_limiter_per_request :
    (Request2.flattenTimeseries pc fmtC req2C rurlC 0).map
        (fun r => r.1.map (fun fr => fr.fetchConfig.limiterId)) =
      .ok [0, 1] ∧
    (0 : Nat) ≠ 1 := by
  refine ⟨?_, by decide⟩
  have h : Request2.flattenTimeseries pc fmtC req2C rurlC 0 =
      .ok (flattenChunks2 fmtC tsC
        { rurlC with query := applyQuery rurlC.query req2C.query }
        req2C 0 (chunksLoop 5 10 0)) := rfl
  rw [h, chunksLoop_concrete]
  rfl

/-- C5 (code bug): with no credential strategy (no APIKey), `connect`
returns no client and no error, so `Upsert` proceeds past the connecting
phase with a nil client instead of failing with a connection error. -/
theorem upsert_proceeds_without_credentials
    (newClient : String → APIKey → Except String Client) :
    upsertConnectPhase newClient cfgC = .proceeded none ∧
    ∀ msg, upsertConnectPhase newClient cfgC ≠ .failed msg := by
  refine ⟨rfl, ?_⟩
  intro msg h
  rw [show upsertConnectPhase newClient cfgC = ConnectOutcome.proceeded none
    from rfl] at h
  exact ConnectOutcome.noConfusion h

/-- C6 counterexample: a job declaring the explicit table "candles" whose
source URL is a coinbase candles endpoint with granularity 60 resolves to
"candle_minutes", not to the declared name — the explicit name does not win
regardless of the URL. -/
theorem resolve_table_override_counterexample :
    jobCandles.table = some "candles" ∧
    resolveTable jobCandles = some "candle_minutes" ∧
    resolveTable jobCandles ≠ some "candles" := by
  refine ⟨rfl, rfl, ?_⟩
  rw [show resolveTable jobCandles = some "candle_minutes" from rfl]
  decide

/-- C6 (amended): the resolved table is the last path segment of the source
URL (leading slash stripped) when no explicit name is declared, and the
explicit name when one is — except that when the resulting name is
"candles" and the URL host contains "coinbase.com", the worker reads the
granularity parameter and renames the table to "candle_minutes" when that
parameter is "60". -/
theorem resolve_table_amended (job : RepoJob) :
    (¬ (baseTable job = "candles" ∧
        strContains job.url.host "coinbase.com" = true) →
      resolveTable job = some (baseTable job)) ∧
    (∀ g gs, baseTable job = "candles" →
      strContains job.url.host "coinbase.com" = true →
      queryGet job.url.query "granularity" = g :: gs →
      2 ≤ (strSplit (trimLeadingSlash job.url.path) '/').length →
      resolveTable job =
        some (if g = "60" then "candle_minutes" else "candles")) := by
  constructor
  · intro hnot
    simp only [resolveTable]
    rw [if_neg hnot]
  · intro g gs hb hh hg hlen
    simp only [resolveTable, hg]
    rw [if_pos ⟨hb, hh⟩]
    rw [if_pos hlen, hb]

/-- Witness for the amended C6 at the concrete coinbase candles job. -/
theorem resolve_table_amended_witness :
    resolveTable jobCandles = some "candle_minutes" :=
  (resolve_table_amended jobCandles).2 "60" [] rfl rfl rfl (by decide)

/-- C10: for any job resolving to table "candles" on a host containing
"coinbase.com", if the query lacks a granularity value or the path has
fewer than two segments, the table resolution indexes out of range (a Go
panic, modelled as `none`) instead of returning an error. -/
theorem resolve_table_panics (job : RepoJob)
    (hb : baseTable job = "candles")
    (hh : strContains job.url.host "coinbase.com" = true)
    (hcond : queryGet job.url.query "granularity" = [] ∨
      (strSplit (trimLeadingSlash job.url.path) '/').length < 2) :
    resolveTable job = none := by
  simp only [resolveTable]
  rw [if_pos ⟨hb, hh⟩]
  rcases hcond with hg | hlen
  · rw [hg]
  · cases hq : queryGet job.url.query "granularity" with
    | nil => rfl
    | cons g gs => exact if_neg (by omega)

/-- Witness for C10 at two concrete jobs: one lacking granularity, one with
a single-segment path. -/
theorem resolve_table_panics_witness :
    resolveTable jobNoGranularity = none ∧
    resolveTable jobShortPath = none :=
  ⟨resolve_table_panics jobNoGranularity rfl rfl (Or.inl rfl),
    resolve_table_panics jobShortPath rfl rfl (Or.inr (by decide))⟩

end Gidari
